/-
Verification of the scope-matching and input-aggregation engine of the bbrf
CLI client (bbrf.go).

Strings are modelled as lists of characters (`Str`).  The Go library
functions used by the engine (strings.ToLower, strings.TrimSpace,
strings.HasSuffix, strings.Fields, strings.Split, strings.ReplaceAll,
regexp.QuoteMeta, and the regular expression produced by matchesWildcard)
are embedded as executable Lean functions on `Str`.  Unicode case folding
and Unicode white space are modelled on their ASCII/Latin-1 fragments
(the fragment exercised by domain names): ToLower lowers the letters
A-Z, and the white-space class is the set recognised by Go's
unicode.IsSpace on Latin-1 (space, tab, LF, VT, FF, CR, NEL, NBSP).

The repository functions keep their Go names: matchesPattern,
matchesWildcard, IsInScope, IsOutOfScope, ShouldAcceptDomain,
NewScopeManager, LoadScope, fetchScopeFromServer, filterDomainsBeforePost,
and the scope-filtering step of handleInputAndPost.
-/
import Mathlib

set_option maxHeartbeats 1000000

namespace BBRF

/-- Strings, modelled as lists of characters. -/
abbrev Str := List Char

/-- Embed a Lean string literal as a character list (for concrete inputs). -/
def strL (s : String) : Str := s.data

/-- Go unicode.IsSpace restricted to Latin-1: space, tab, LF, VT, FF, CR,
NEL (U+0085) and NBSP (U+00A0). -/
def isSpace (c : Char) : Bool :=
  decide (c.toNat = 32 ∨ c.toNat = 9 ∨ c.toNat = 10 ∨ c.toNat = 11 ∨ c.toNat = 12 ∨
    c.toNat = 13 ∨ c.toNat = 133 ∨ c.toNat = 160)

/-- Go strings.ToLower on one character, ASCII fragment: A-Z map to a-z,
everything else is fixed. -/
def toLowerChar (c : Char) : Char :=
  if 65 ≤ c.toNat ∧ c.toNat ≤ 90 then Char.ofNat (c.toNat + 32) else c

/-- Go strings.ToLower. -/
def toLower (l : Str) : Str := l.map toLowerChar

/-- Go strings.TrimSpace: remove white space from both ends. -/
def trimSpace (l : Str) : Str := (l.dropWhile isSpace).rdropWhile isSpace

/-- The normalization both matchesPattern and ShouldAcceptDomain apply:
strings.ToLower(strings.TrimSpace(s)). -/
def normalize (l : Str) : Str := toLower (trimSpace l)

/-- Go strings.HasSuffix(s, suffix). -/
def endsWith (s suffix : Str) : Bool := List.isSuffixOf suffix s

/-- The characters regexp.QuoteMeta escapes with a backslash:
backslash . + * ? ( ) | [ ] brace-open brace-close caret dollar. -/
def isSpecialChar (c : Char) : Bool :=
  decide (c.toNat = 92 ∨ c.toNat = 46 ∨ c.toNat = 43 ∨ c.toNat = 42 ∨ c.toNat = 63 ∨
    c.toNat = 40 ∨ c.toNat = 41 ∨ c.toNat = 124 ∨ c.toNat = 91 ∨ c.toNat = 93 ∨
    c.toNat = 123 ∨ c.toNat = 125 ∨ c.toNat = 94 ∨ c.toNat = 36)

/-- Go regexp.QuoteMeta: escape every regex metacharacter with a backslash. -/
def quoteMeta : Str → Str
  | [] => []
  | c :: rest => if isSpecialChar c then '\\' :: c :: quoteMeta rest else c :: quoteMeta rest

/-- Go strings.ReplaceAll(s, escaped-star, dot-star): rewrite every
leftmost non-overlapping backslash-star pair into a dot-star pair
(bbrf.go line 602). -/
def replaceEscStarAux : Char → Str → Str
  | c1, [] => [c1]
  | c1, c2 :: rest =>
    if c1 = '\\' ∧ c2 = '*' then
      '.' :: '*' :: (match rest with
        | [] => []
        | r :: rs => replaceEscStarAux r rs)
    else c1 :: replaceEscStarAux c2 rest

/-- Entry point of the replacement scan (first character as lookahead). -/
def replaceEscStar : Str → Str
  | [] => []
  | c :: rest => replaceEscStarAux c rest

/-- One element of the compiled form of the anchored glob regex that
matchesWildcard builds: a literal character, or dot-star. -/
inductive GlobItem where
  | lit : Char → GlobItem
  | star : GlobItem
deriving DecidableEq

/-- Compilation of the regex body matchesWildcard hands to regexp.Compile
(the part between the caret and dollar anchors).  The strings produced by
quoteMeta/replaceEscStar consist only of escaped literals and dot-star
pairs; this compiler accepts exactly that shape and returns none on
anything else.  Returning none models regexp.Compile failing; the
theorem for C9 shows none is never returned on the strings the code
builds, so the fallback branch of matchesWildcard is unreachable. -/
def parseGlobRegex : Str → Option (List GlobItem)
  | [] => some []
  | c :: rest =>
    if c = '\\' then
      match rest with
      | [] => none
      | c2 :: rest2 => (parseGlobRegex rest2).map (fun is => GlobItem.lit c2 :: is)
    else if c = '.' then
      match rest with
      | [] => none
      | c2 :: rest2 =>
        if c2 = '*' then (parseGlobRegex rest2).map (fun is => GlobItem.star :: is)
        else none
    else if isSpecialChar c then none
    else (parseGlobRegex rest).map (fun is => GlobItem.lit c :: is)

/-- Execution step for a star item: hand every split of the remaining
text to the continuation, consuming only characters the star may match
(see runItems and fpMatch). -/
def starChoices (keepChar : Char → Bool) (f : Str → Bool) : Str → Bool
  | [] => f []
  | x :: xs => f (x :: xs) || (keepChar x && starChoices keepChar f xs)

/-- Execution of the compiled anchored regex against a string, i.e. Go
regex.MatchString for the pattern caret-body-dollar: with Go's default
flags the anchors pin the match to the whole text, a literal matches
exactly itself, and dot-star matches any sequence of characters other
than newline (Go's dot does not match newline). -/
def runItems : List GlobItem → Str → Bool
  | [], d => d.isEmpty
  | GlobItem.lit c :: is, d =>
    match d with
    | [] => false
    | x :: xs => c == x && runItems is xs
  | GlobItem.star :: is, d => starChoices (fun x => !(x == '\n')) (runItems is) d

/-- Go filepath.Match(pattern, name) on unix, with the error result
discarded as in bbrf.go line 609 (so a malformed pattern yields false):
star matches a run of non-separator characters, question mark one
non-separator character, backslash escapes the next character.  A
character class (or a trailing backslash) is treated as no match, the
conservative reading of Match returning ErrBadPattern; this branch of
matchesWildcard is unreachable (see the C9 theorem). -/
def fpMatch : Str → Str → Bool
  | [], d => d.isEmpty
  | '*' :: ps, d => starChoices (fun x => !(x == '/')) (fpMatch ps) d
  | '?' :: ps, d =>
    (match d with
      | [] => false
      | x :: xs => !(x == '/') && fpMatch ps xs)
  | '\\' :: ps, d =>
    (match ps with
      | [] => false
      | c :: ps2 =>
        match d with
        | [] => false
        | x :: xs => c == x && fpMatch ps2 xs)
  | '[' :: _, _ => false
  | c :: ps, d =>
    (match d with
      | [] => false
      | x :: xs => c == x && fpMatch ps xs)

/-- bbrf.go lines 591-614, matchesWildcard(domain, pattern): a pattern
beginning star-dot matches the bare suffix or any subdomain of it; any
other wildcard pattern is quoted, its escaped stars become dot-star, the
result is anchored and compiled, and the domain is matched against it;
if compilation fails the code falls back to filepath.Match with the
error discarded. -/
def matchesWildcard (domain pattern : Str) : Bool :=
  if List.isPrefixOf ['*', '.'] pattern then
    domain == pattern.drop 2 || endsWith domain ('.' :: pattern.drop 2)
  else
    match parseGlobRegex (replaceEscStar (quoteMeta pattern)) with
    | some items => runItems items domain
    | none => fpMatch pattern domain

/-- bbrf.go lines 569-589, matchesPattern(domain, pattern): normalize
both, then exact match, else wildcard match when the pattern contains a
star, else implicit-subdomain suffix match. -/
def matchesPattern (domain pattern : Str) : Bool :=
  let pattern := normalize pattern
  let domain := normalize domain
  if pattern == domain then true
  else if pattern.contains '*' then matchesWildcard domain pattern
  else if endsWith domain ('.' :: pattern) then true
  else false

/-- The scope manager: in-scope patterns, out-of-scope patterns, company. -/
structure ScopeManager where
  InScope : List Str
  OutScope : List Str
  company : String

/-- bbrf.go lines 455-461: a fresh manager with empty pattern lists. -/
def NewScopeManager (company : String) : ScopeManager :=
  { InScope := [], OutScope := [], company := company }

/-- bbrf.go lines 551-558: the domain matches some in-scope pattern. -/
def IsInScope (sm : ScopeManager) (domain : Str) : Bool :=
  sm.InScope.any (fun pattern => matchesPattern domain pattern)

/-- bbrf.go lines 560-567: the domain matches some out-of-scope pattern. -/
def IsOutOfScope (sm : ScopeManager) (domain : Str) : Bool :=
  sm.OutScope.any (fun pattern => matchesPattern domain pattern)

/-- bbrf.go lines 529-549, ShouldAcceptDomain: normalize, reject on an
out-of-scope match, else accept on an in-scope match, else accept when no
in-scope patterns exist, else reject. -/
def ShouldAcceptDomain (sm : ScopeManager) (domain : Str) : Bool × String :=
  let domain := normalize domain
  if IsOutOfScope sm domain then (false, "domain matches out-of-scope pattern")
  else if IsInScope sm domain then (true, "domain matches in-scope pattern")
  else if sm.InScope.length = 0 then (true, "no in-scope patterns defined, accepting by default")
  else (false, "domain does not match any in-scope pattern")

/-- bbrf.go line 790: strings.ReplaceAll(domainsInput, newline, space). -/
def replaceNewlines (l : Str) : Str := l.map (fun c => if c == '\n' then ' ' else c)

/-- Helper for Go strings.Fields: accumulate the current (reversed) token. -/
def fieldsAux : Str → Str → List Str
  | [], acc => if acc.isEmpty then [] else [acc.reverse]
  | c :: rest, acc =>
    if isSpace c then
      if acc.isEmpty then fieldsAux rest [] else acc.reverse :: fieldsAux rest []
    else fieldsAux rest (c :: acc)

/-- Go strings.Fields: split around runs of white space. -/
def fields (l : Str) : List Str := fieldsAux l []

/-- Go strings.Split(domain, colon)[0] as used on bbrf.go line 804: the
part of the token before the first colon (the whole token when it has
no colon). -/
def splitColonHead (l : Str) : Str := l.takeWhile (fun c => !(c == ':'))

/-- bbrf.go lines 797-816, the filtering loop of filterDomainsBeforePost:
trim each token, skip empty ones, decide on the part before the first
colon, and keep the original (trimmed) token when accepted. -/
def filterLoop (sm : ScopeManager) : List Str → List Str
  | [] => []
  | d0 :: rest =>
    let d := trimSpace d0
    if d.isEmpty then filterLoop sm rest
    else if (ShouldAcceptDomain sm (splitColonHead d)).1 then d :: filterLoop sm rest
    else filterLoop sm rest

/-- The accepted-token list computed by filterDomainsBeforePost for a
given (already loaded) scope manager. -/
def acceptedDomains (sm : ScopeManager) (domainsInput : Str) : List Str :=
  filterLoop sm (fields (replaceNewlines domainsInput))

/-- bbrf.go lines 764-834, filterDomainsBeforePost after the scope rules
are loaded (the sm argument stands for the loaded manager): tokenize,
filter, and return the accepted tokens joined by spaces, or the empty
string when everything was filtered out. -/
def filterDomainsBeforePost (sm : ScopeManager) (domainsInput : Str) : Str :=
  let accepted := acceptedDomains sm domainsInput
  if accepted.isEmpty then [] else List.intercalate [' '] accepted

/-- bbrf.go lines 733-756, the scope-filtering step of handleInputAndPost:
with the filter enabled, the override off and the domains key, the value
is filtered (none means every domain was filtered out and no API call is
made); otherwise the value is posted unchanged. -/
def handleInputAndPostValue (enableScopeFilter allowOutOfScope : Bool) (key : String)
    (sm : ScopeManager) (value : Str) : Option Str :=
  if enableScopeFilter && !allowOutOfScope && (key == "domains") then
    let filtered := filterDomainsBeforePost sm value
    if (trimSpace filtered).isEmpty then none else some filtered
  else some value

/-- An HTTP response as far as fetchScopeFromServer inspects it. -/
structure HTTPResponse where
  statusCode : Nat
  body : Str

/-- Go strings.Split(text, newline). -/
def splitOnNewline : Str → List Str
  | [] => [[]]
  | c :: rest =>
    if c == '\n' then [] :: splitOnNewline rest
    else
      match splitOnNewline rest with
      | [] => [[c]]
      | s :: ss => (c :: s) :: ss

/-- bbrf.go lines 514-521: split the plain-text body into lines, trim
each line, and keep the non-empty ones. -/
def parsePatternLines (text : Str) : List Str :=
  ((splitOnNewline text).map trimSpace).filter (fun l => !l.isEmpty)

/-- bbrf.go lines 480-526, fetchScopeFromServer.  The transport is
abstracted: the argument is either a transport error (request creation
or client.Do failing) or the received response; json.Unmarshal into a
string list is abstracted as the jsonParse argument.  A non-200 status
or a blank body yields the empty pattern list with a nil error; a body
that fails JSON parsing is treated as newline-delimited plain text. -/
def fetchScopeFromServer (jsonParse : Str → Option (List Str)) :
    Except String HTTPResponse → Except String (List Str)
  | Except.error e => Except.error e
  | Except.ok r =>
    if r.statusCode ≠ 200 then Except.ok []
    else if (trimSpace r.body).isEmpty then Except.ok []
    else
      match jsonParse r.body with
      | some patterns => Except.ok patterns
      | none =>
        let text := trimSpace r.body
        Except.ok (if text.isEmpty then [] else parsePatternLines text)

/-- bbrf.go lines 464-478, LoadScope: fetch the in-scope and out-of-scope
lists, overwrite the corresponding field only when the fetch succeeded,
and always return a nil error (modelled as the none in the second
component). -/
def LoadScope (jsonParse : Str → Option (List Str))
    (respIn respOut : Except String HTTPResponse) (sm : ScopeManager) :
    ScopeManager × Option String :=
  let sm1 :=
    match fetchScopeFromServer jsonParse respIn with
    | Except.ok inscope => { sm with InScope := inscope }
    | Except.error _ => sm
  let sm2 :=
    match fetchScopeFromServer jsonParse respOut with
    | Except.ok outscope => { sm1 with OutScope := outscope }
    | Except.error _ => sm1
  (sm2, none)

/-- A fetch that did not deliver patterns: a transport error or a
non-200 status. -/
def fetchFailed : Except String HTTPResponse → Bool
  | Except.error _ => true
  | Except.ok r => r.statusCode != 200

theorem toNat_ofNat_of_lt {n : Nat} (h : n < 55296) : (Char.ofNat n).toNat = n := by
  unfold Char.ofNat
  rw [dif_pos (Or.inl h)]
  rfl

theorem toNat_toLowerChar (c : Char) :
    (toLowerChar c).toNat = if 65 ≤ c.toNat ∧ c.toNat ≤ 90 then c.toNat + 32 else c.toNat := by
  unfold toLowerChar
  split
  · rw [toNat_ofNat_of_lt (by omega)]
  · rfl

theorem isSpace_toLowerChar (c : Char) : isSpace (toLowerChar c) = isSpace c := by
  have h := toNat_toLowerChar c
  unfold isSpace
  rw [h, decide_eq_decide]
  split
  · omega
  · exact Iff.rfl

theorem toLowerChar_idem (c : Char) : toLowerChar (toLowerChar c) = toLowerChar c := by
  have h := toNat_toLowerChar c
  unfold toLowerChar
  split
  · rw [if_neg]
    rw [toNat_ofNat_of_lt (by omega)]
    omega
  · rfl

theorem isSpace_comp_toLowerChar : (isSpace ∘ toLowerChar) = isSpace :=
  funext fun c => isSpace_toLowerChar c

theorem toLower_idem (l : Str) : toLower (toLower l) = toLower l := by
  unfold toLower
  rw [List.map_map]
  exact List.map_congr_left fun c _ => toLowerChar_idem c

theorem dropWhile_toLower (l : Str) :
    List.dropWhile isSpace (toLower l) = toLower (List.dropWhile isSpace l) := by
  unfold toLower
  rw [List.dropWhile_map, isSpace_comp_toLowerChar]

theorem rdropWhile_toLower (l : Str) :
    List.rdropWhile isSpace (toLower l) = toLower (List.rdropWhile isSpace l) := by
  unfold List.rdropWhile
  rw [show (toLower l).reverse = toLower l.reverse from (List.map_reverse _ _).symm]
  rw [dropWhile_toLower]
  unfold toLower
  rw [List.map_reverse]

theorem trimSpace_toLower (l : Str) : trimSpace (toLower l) = toLower (trimSpace l) := by
  unfold trimSpace
  rw [dropWhile_toLower, rdropWhile_toLower]

theorem dropWhile_rdropWhile_self {p : Char → Bool} {l : Str}
    (h : List.dropWhile p l = l) :
    List.dropWhile p (List.rdropWhile p l) = List.rdropWhile p l := by
  rcases hpre : List.rdropWhile p l with _ | ⟨x, xs⟩
  · rfl
  · have hpr : List.rdropWhile p l <+: l := List.rdropWhile_prefix p l
    rw [hpre] at hpr
    obtain ⟨t, ht⟩ := hpr
    have hx : p x = false := by
      rw [← ht, List.cons_append] at h
      have := List.dropWhile_eq_self_iff.mp h (by simp)
      simpa using this
    rw [List.dropWhile_cons, hx]
    simp

theorem trimSpace_idem (l : Str) : trimSpace (trimSpace l) = trimSpace l := by
  unfold trimSpace
  rw [dropWhile_rdropWhile_self (List.dropWhile_idempotent _ _)]
  exact List.rdropWhile_idempotent _ _

theorem dropWhile_trimSpace (l : Str) :
    List.dropWhile isSpace (trimSpace l) = trimSpace l :=
  dropWhile_rdropWhile_self (List.dropWhile_idempotent _ _)

theorem rdropWhile_trimSpace (l : Str) :
    List.rdropWhile isSpace (trimSpace l) = trimSpace l :=
  List.rdropWhile_idempotent _ _

theorem normalize_idem (l : Str) : normalize (normalize l) = normalize l := by
  unfold normalize
  rw [trimSpace_toLower, trimSpace_idem, toLower_idem]

theorem trimSpace_normalize (l : Str) : trimSpace (normalize l) = normalize l := by
  unfold normalize
  rw [trimSpace_toLower, trimSpace_idem]

theorem toLower_normalize (l : Str) : toLower (normalize l) = normalize l := by
  unfold normalize
  rw [toLower_idem]

theorem matchesPattern_normalize_dom (d p : Str) :
    matchesPattern (normalize d) p = matchesPattern d p := by
  simp only [matchesPattern, normalize_idem]

theorem IsOutOfScope_normalize (sm : ScopeManager) (d : Str) :
    IsOutOfScope sm (normalize d) = IsOutOfScope sm d := by
  unfold IsOutOfScope
  rw [show (fun pattern => matchesPattern (normalize d) pattern) =
      (fun pattern => matchesPattern d pattern) from
    funext fun pattern => matchesPattern_normalize_dom d pattern]

theorem IsInScope_normalize (sm : ScopeManager) (d : Str) :
    IsInScope sm (normalize d) = IsInScope sm d := by
  unfold IsInScope
  rw [show (fun pattern => matchesPattern (normalize d) pattern) =
      (fun pattern => matchesPattern d pattern) from
    funext fun pattern => matchesPattern_normalize_dom d pattern]

theorem ShouldAcceptDomain_normalize (sm : ScopeManager) (d : Str) :
    ShouldAcceptDomain sm (normalize d) = ShouldAcceptDomain sm d := by
  simp only [ShouldAcceptDomain, normalize_idem]

theorem sad_empty (company : String) (d : Str) :
    ShouldAcceptDomain ⟨[], [], company⟩ d =
      (true, "no in-scope patterns defined, accepting by default") := by
  simp [ShouldAcceptDomain, IsOutOfScope, IsInScope]

/-- C1: for every candidate domain and every ScopeContext, if the
candidate matches at least one out-of-scope pattern then
ShouldAcceptDomain rejects it with the out-of-scope reason
(OUT_OF_SCOPE_MATCH), regardless of any in-scope matches: the
out-of-scope check runs first and always wins. -/
theorem C1_out_of_scope_always_wins (sm : ScopeManager) (d : Str)
    (h : ∃ p ∈ sm.OutScope, matchesPattern d p = true) :
    ShouldAcceptDomain sm d = (false, "domain matches out-of-scope pattern") := by
  have hout : IsOutOfScope sm d = true := by
    unfold IsOutOfScope
    exact List.any_eq_true.mpr h
  simp only [ShouldAcceptDomain, IsOutOfScope_normalize, hout, if_true]

/-- C1 witness: dev.example.com matches the out-of-scope pattern
dev.example.com and also matches the in-scope pattern example.com, and
the decision is reject with the out-of-scope reason. -/
theorem C1_out_of_scope_always_wins_witness :
    IsInScope ⟨[strL "example.com"], [strL "dev.example.com"], "acme"⟩
      (strL "dev.example.com") = true ∧
    ShouldAcceptDomain ⟨[strL "example.com"], [strL "dev.example.com"], "acme"⟩
      (strL "dev.example.com") = (false, "domain matches out-of-scope pattern") :=
  ⟨by decide, C1_out_of_scope_always_wins _ _ (by decide)⟩

/-- C3: with an empty in-scope set and an empty out-of-scope set, every
candidate domain is accepted with the default reason
(NO_RULES_DEFAULT_ACCEPT). -/
theorem C3_default_accept (company : String) (d : Str) :
    ShouldAcceptDomain ⟨[], [], company⟩ d =
      (true, "no in-scope patterns defined, accepting by default") :=
  sad_empty company d

/-- C6: with the allow-out-of-scope override set, the posting step
bypasses the decision engine and posts the input value unchanged,
whatever the patterns and the scope-filter flag are. -/
theorem C6_allow_out_of_scope_bypasses (enableScopeFilter : Bool) (key : String)
    (sm : ScopeManager) (value : Str) :
    handleInputAndPostValue enableScopeFilter true key sm value = some value := by
  simp [handleInputAndPostValue]

/-- C7: the decision is invariant under the candidate normalization:
deciding the lowercased trimmed form of any candidate gives the same
result as deciding the candidate itself, and in particular
API.Example.COM decides exactly as api.example.com for every
ScopeContext. -/
theorem C7_decision_normalization_invariant (sm : ScopeManager) (d : Str) :
    ShouldAcceptDomain sm (toLower (trimSpace d)) = ShouldAcceptDomain sm d ∧
    ShouldAcceptDomain sm (strL "API.Example.COM") =
      ShouldAcceptDomain sm (strL "api.example.com") := by
  constructor
  · exact ShouldAcceptDomain_normalize sm d
  · have h := ShouldAcceptDomain_normalize sm (strL "API.Example.COM")
    rw [show normalize (strL "API.Example.COM") = strL "api.example.com" from by decide] at h
    exact h.symm

theorem runItems_single_star (d : Str) :
    runItems [GlobItem.star] d = !d.contains '\n' := by
  induction d with
  | nil => rfl
  | cons x xs ih =>
    show starChoices (fun x => !(x == '\n')) (runItems []) (x :: xs) = _
    unfold starChoices
    show (runItems [] (x :: xs) || (!(x == '\n') && starChoices _ (runItems []) xs)) = _
    have hx : starChoices (fun x => !(x == '\n')) (runItems []) xs = runItems [GlobItem.star] xs := rfl
    rw [hx, ih]
    by_cases hxn : x = '\n'
    · subst hxn
      simp [runItems, List.contains_cons]
    · simp [runItems, List.contains_cons, hxn, Ne.symm hxn]

/-- C4 counterexample: the non-empty candidate a-dot matches the empty
pattern, because the implicit-subdomain branch tests HasSuffix(domain,
dot concatenated with the empty pattern), i.e. a trailing dot. -/
theorem C4_counterexample :
    matchesPattern (strL "a.") [] = true ∧ strL "a." ≠ [] ∧ normalize (strL "a.") ≠ [] := by
  decide

/-- C4 amended: the empty pattern matches exactly the candidates whose
normalized form is empty or ends with a dot (the exact-match branch
accepts the empty candidate, and the implicit-subdomain branch accepts
any candidate with a trailing dot). -/
theorem C4_empty_pattern (cand : Str) :
    matchesPattern cand [] =
      ((normalize cand).isEmpty || endsWith (normalize cand) ['.']) := by
  simp only [matchesPattern]
  rw [show normalize ([] : Str) = [] from rfl]
  by_cases h : ([] : Str) == normalize cand
  · rw [if_pos h]
    have : normalize cand = [] := (eq_of_beq h).symm
    rw [this]
    rfl
  · rw [if_neg h]
    have hne : (normalize cand).isEmpty = false := by
      cases hc : normalize cand with
      | nil => rw [hc] at h; simp at h
      | cons a l => rfl
    rw [hne]
    rw [show (([] : Str).contains '*') = false from rfl]
    simp only [Bool.false_eq_true, if_false, Bool.false_or]
    by_cases hsuf : endsWith (normalize cand) ['.'] = true
    · rw [hsuf, if_pos rfl]
    · have : endsWith (normalize cand) ['.'] = false := by
        cases hv : endsWith (normalize cand) ['.']
        · rfl
        · exact absurd hv hsuf
      rw [this]
      simp

/-- C10 counterexample: the pattern star does not match a candidate
containing a newline, because the dot in the compiled anchored regex
dot-star does not match newline under Go's default flags. -/
theorem C10_counterexample :
    matchesPattern (strL "a\nb") (strL "*") = false := by
  decide

/-- C10 amended: the pattern star does match the empty candidate, and in
general it matches exactly the candidates whose normalized form contains
no newline character. -/
theorem C10_star_matches (d : Str) :
    matchesPattern [] (strL "*") = true ∧
    matchesPattern d (strL "*") = !((normalize d).contains '\n') := by
  refine ⟨by decide, ?_⟩
  simp only [matchesPattern]
  rw [show normalize (strL "*") = ['*'] from by decide]
  by_cases h : (['*'] : Str) == normalize d
  · rw [if_pos h]
    have : normalize d = ['*'] := (eq_of_beq h).symm
    rw [this]
    rfl
  · rw [if_neg h]
    rw [show ((['*'] : Str).contains '*') = true from rfl, if_pos rfl]
    show matchesWildcard (normalize d) ['*'] = _
    unfold matchesWildcard
    rw [if_neg (by decide)]
    rw [show parseGlobRegex (replaceEscStar (quoteMeta ['*'])) = some [GlobItem.star] from rfl]
    exact runItems_single_star (normalize d)

theorem rdropWhile_normalize (l : Str) :
    List.rdropWhile isSpace (normalize l) = normalize l := by
  unfold normalize
  rw [rdropWhile_toLower, rdropWhile_trimSpace]

theorem normalize_star_dot_aux (t : Str) (hR : List.rdropWhile isSpace t = t)
    (hL : toLower t = t) : normalize ('*' :: '.' :: t) = '*' :: '.' :: t := by
  have hdrop : List.dropWhile isSpace ('*' :: '.' :: t) = '*' :: '.' :: t := by
    rw [List.dropWhile_cons, show isSpace '*' = false from by decide]
    simp
  have hr : List.rdropWhile isSpace ('*' :: '.' :: t) = '*' :: '.' :: t := by
    cases ht : t with
    | nil => decide
    | cons r rs =>
      rw [← ht]
      have h2 : List.dropWhile isSpace t.reverse = t.reverse := by
        have h3 := congrArg List.reverse hR
        unfold List.rdropWhile at h3
        rwa [List.reverse_reverse] at h3
      rw [show ('*' :: '.' :: t : Str) = ['*', '.'] ++ t from rfl]
      unfold List.rdropWhile
      rw [List.reverse_append, List.dropWhile_append, h2]
      rw [show (t.reverse.isEmpty) = false from by rw [ht]; simp]
      simp

  show toLower (trimSpace ('*' :: '.' :: t)) = _
  unfold trimSpace
  rw [hdrop, hr]
  show toLowerChar '*' :: toLowerChar '.' :: toLower t = _
  rw [show toLowerChar '*' = '*' from by decide, show toLowerChar '.' = '.' from by decide, hL]

theorem normalize_star_dot (s : Str) :
    normalize ('*' :: '.' :: normalize s) = '*' :: '.' :: normalize s :=
  normalize_star_dot_aux (normalize s) (rdropWhile_normalize s) (toLower_normalize s)

/-- C2: matching a domain against a wildcard-prefix pattern star-dot-s
succeeds exactly when the domain equals s or ends with dot-s.  The first
conjunct states this for matchesWildcard (which receives already
normalized strings from matchesPattern) for all domains and suffixes;
the second states it through matchesPattern for normalized domains and
suffixes. -/
theorem C2_wildcard_prefix_iff (d s : Str) :
    (matchesWildcard d ('*' :: '.' :: s) = (d == s || endsWith d ('.' :: s))) ∧
    (matchesPattern (normalize d) ('*' :: '.' :: normalize s) =
      (normalize d == normalize s || endsWith (normalize d) ('.' :: normalize s))) := by
  have hwild : ∀ d0 s0 : Str,
      matchesWildcard d0 ('*' :: '.' :: s0) = (d0 == s0 || endsWith d0 ('.' :: s0)) := by
    intro d0 s0
    unfold matchesWildcard
    rw [if_pos]
    · rfl
    · show List.isPrefixOf ['*', '.'] ('*' :: '.' :: s0) = true
      simp [List.isPrefixOf]
  refine ⟨hwild d s, ?_⟩
  simp only [matchesPattern, normalize_star_dot, normalize_idem]
  by_cases h : (('*' :: '.' :: normalize s : Str) == normalize d)
  · rw [if_pos h]
    have hd : normalize d = '*' :: '.' :: normalize s := (eq_of_beq h).symm
    rw [hd]
    have hsuf : endsWith ('*' :: '.' :: normalize s) ('.' :: normalize s) = true := by
      unfold endsWith
      rw [List.isSuffixOf_iff_suffix]
      exact ⟨['*'], rfl⟩
    rw [hsuf]
    simp
  · rw [if_neg h]
    rw [show (('*' :: '.' :: normalize s : Str).contains '*') = true from by
      simp [List.contains_cons]]
    rw [if_pos rfl]
    exact hwild (normalize d) (normalize s)

theorem fieldsAux_tokens : ∀ (l : Str) (acc : Str), (∀ c ∈ acc, isSpace c = false) →
    ∀ t ∈ fieldsAux l acc, t ≠ [] ∧ ∀ c ∈ t, isSpace c = false := by
  intro l
  induction l with
  | nil =>
    intro acc hacc t ht
    unfold fieldsAux at ht
    by_cases hae : acc.isEmpty
    · rw [if_pos hae] at ht
      simp at ht
    · rw [if_neg hae] at ht
      simp only [List.mem_singleton] at ht
      subst ht
      refine ⟨?_, fun c hc => hacc c (List.mem_reverse.mp hc)⟩
      intro hrev
      rw [List.reverse_eq_nil_iff] at hrev
      subst hrev
      exact hae rfl
  | cons a rest ih =>
    intro acc hacc t ht
    unfold fieldsAux at ht
    by_cases hsp : isSpace a = true
    · rw [if_pos hsp] at ht
      by_cases hae : acc.isEmpty
      · rw [if_pos hae] at ht
        exact ih [] (by simp) t ht
      · rw [if_neg hae] at ht
        rcases List.mem_cons.mp ht with h1 | h2
        · subst h1
          refine ⟨?_, fun c hc => hacc c (List.mem_reverse.mp hc)⟩
          intro hrev
          rw [List.reverse_eq_nil_iff] at hrev
          subst hrev
          exact hae rfl
        · exact ih [] (by simp) t h2
    · rw [if_neg hsp] at ht
      refine ih (a :: acc) ?_ t ht
      intro c hc
      rcases List.mem_cons.mp hc with h1 | h2
      · subst h1
        cases hv : isSpace c
        · rfl
        · exact absurd hv hsp
      · exact hacc c h2

theorem trimSpace_eq_self_of_no_space {t : Str} (h : ∀ c ∈ t, isSpace c = false) :
    trimSpace t = t := by
  unfold trimSpace
  have h1 : List.dropWhile isSpace t = t := by
    cases t with
    | nil => rfl
    | cons x xs =>
      rw [List.dropWhile_cons, h x (by simp)]
      simp
  rw [h1]
  apply List.rdropWhile_eq_self_iff.mpr
  intro hl
  have hm := h _ (List.getLast_mem hl)
  simp [hm]

theorem filterLoop_eq_filter (sm : ScopeManager) :
    ∀ toks : List Str, (∀ t ∈ toks, t ≠ [] ∧ ∀ c ∈ t, isSpace c = false) →
    filterLoop sm toks =
      toks.filter (fun t => (ShouldAcceptDomain sm (splitColonHead t)).1) := by
  intro toks
  induction toks with
  | nil => intro _; rfl
  | cons t rest ih =>
    intro h
    obtain ⟨hne, hns⟩ := h t (List.mem_cons_self t rest)
    have htr : trimSpace t = t := trimSpace_eq_self_of_no_space hns
    have hrest := fun x hx => h x (List.mem_cons_of_mem _ hx)
    simp only [filterLoop]
    rw [htr]
    have hem : t.isEmpty = false := by
      cases t
      · exact absurd rfl hne
      · rfl
    rw [hem]
    simp only [Bool.false_eq_true, if_false]
    rw [List.filter_cons]
    by_cases hacc : (ShouldAcceptDomain sm (splitColonHead t)).1 = true
    · rw [if_pos hacc, if_pos hacc, ih hrest]
    · rw [if_neg hacc, if_neg hacc, ih hrest]

/-- C5: the accepted token list of the batch filter equals the filter of
the token list that keeps exactly the tokens whose colon-stripped
evaluation key is accepted: the decision is computed on the part of the
token before the first colon, the kept element is the original token
itself (annotation included), and List.filter preserves the input
order. -/
theorem C5_eval_key_original_token_order (sm : ScopeManager) (input : Str) :
    acceptedDomains sm input =
      (fields (replaceNewlines input)).filter
        (fun t => (ShouldAcceptDomain sm (splitColonHead t)).1) := by
  unfold acceptedDomains
  exact filterLoop_eq_filter sm _ (fieldsAux_tokens _ [] (by simp))

/-- C8: pattern retrieval is fail-soft.  A non-200 status yields the
empty pattern list with a nil error; a blank body yields the empty
pattern list with a nil error; LoadScope always returns a nil error; and
a manager loaded from two failed fetches (transport error or non-200)
has empty pattern sets and therefore default-accepts every domain. -/
theorem C8_fetch_fail_soft (jsonParse : Str → Option (List Str)) :
    (∀ r : HTTPResponse, r.statusCode ≠ 200 →
        fetchScopeFromServer jsonParse (Except.ok r) = Except.ok []) ∧
    (∀ r : HTTPResponse, (trimSpace r.body).isEmpty = true →
        fetchScopeFromServer jsonParse (Except.ok r) = Except.ok []) ∧
    (∀ (respIn respOut : Except String HTTPResponse) (sm : ScopeManager),
        (LoadScope jsonParse respIn respOut sm).2 = none) ∧
    (∀ (respIn respOut : Except String HTTPResponse) (company : String) (d : Str),
        fetchFailed respIn = true → fetchFailed respOut = true →
        (LoadScope jsonParse respIn respOut (NewScopeManager company)).1.InScope = [] ∧
        (LoadScope jsonParse respIn respOut (NewScopeManager company)).1.OutScope = [] ∧
        ShouldAcceptDomain (LoadScope jsonParse respIn respOut (NewScopeManager company)).1 d =
          (true, "no in-scope patterns defined, accepting by default")) := by
  refine ⟨?_, ?_, ?_, ?_⟩
  · intro r h
    simp only [fetchScopeFromServer]
    rw [if_pos h]
  · intro r h
    simp only [fetchScopeFromServer]
    by_cases hs : r.statusCode ≠ 200
    · rw [if_pos hs]
    · rw [if_neg hs, if_pos h]
  · intro respIn respOut sm
    rfl
  · intro respIn respOut company d hIn hOut
    have hsm : (LoadScope jsonParse respIn respOut (NewScopeManager company)).1 =
        ⟨[], [], company⟩ := by
      cases respIn with
      | error e =>
        cases respOut with
        | error e2 => rfl
        | ok r2 =>
          have h2 : r2.statusCode ≠ 200 := by simpa [fetchFailed] using hOut
          simp [LoadScope, fetchScopeFromServer, h2, NewScopeManager]
      | ok r1 =>
        have h1 : r1.statusCode ≠ 200 := by simpa [fetchFailed] using hIn
        cases respOut with
        | error e2 => simp [LoadScope, fetchScopeFromServer, h1, NewScopeManager]
        | ok r2 =>
          have h2 : r2.statusCode ≠ 200 := by simpa [fetchFailed] using hOut
          simp [LoadScope, fetchScopeFromServer, h1, h2, NewScopeManager]
    rw [hsm]
    exact ⟨rfl, rfl, sad_empty company d⟩

/-- C8 witness: a 404 in-scope fetch and an empty-body 200 fetch yield
empty pattern lists, loading over a transport error and a 500 returns a
nil error, and the resulting manager default-accepts a domain. -/
theorem C8_fetch_fail_soft_witness :
    fetchScopeFromServer (fun _ => none) (Except.ok ⟨404, strL "irrelevant"⟩) = Except.ok [] ∧
    fetchScopeFromServer (fun _ => none) (Except.ok ⟨200, strL "  "⟩) = Except.ok [] ∧
    (LoadScope (fun _ => none) (Except.error "connection refused")
      (Except.ok ⟨500, strL ""⟩) (NewScopeManager "acme")).2 = none ∧
    ShouldAcceptDomain (LoadScope (fun _ => none) (Except.error "connection refused")
      (Except.ok ⟨500, strL ""⟩) (NewScopeManager "acme")).1 (strL "anything.example") =
      (true, "no in-scope patterns defined, accepting by default") :=
  ⟨(C8_fetch_fail_soft _).1 _ (by decide),
   (C8_fetch_fail_soft _).2.1 _ (by decide),
   (C8_fetch_fail_soft _).2.2.1 _ _ _,
   ((C8_fetch_fail_soft _).2.2.2 _ _ "acme" _ (by decide) (by decide)).2.2⟩

theorem quoteMeta_head_ne_star (p : Str) : ∀ c cs, quoteMeta p = c :: cs → ¬ c = '*' := by
  cases p with
  | nil =>
    intro c cs h
    simp [quoteMeta] at h
  | cons a rest =>
    intro c cs h
    unfold quoteMeta at h
    by_cases ha : isSpecialChar a = true
    · rw [if_pos ha] at h
      injection h with h1 h2
      rw [← h1]
      decide
    · rw [if_neg ha] at h
      injection h with h1 h2
      intro hc
      apply ha
      rw [h1, hc]
      decide

theorem replaceEscStarAux_cons (a : Char) (l : Str)
    (h : ∀ r rs, l = r :: rs → ¬(a = '\\' ∧ r = '*')) :
    replaceEscStarAux a l = a :: replaceEscStar l := by
  cases l with
  | nil => rfl
  | cons r rs =>
    show replaceEscStarAux a (r :: rs) = a :: replaceEscStarAux r rs
    cases rs with
    | nil => rw [replaceEscStarAux.eq_2, if_neg (h r [] rfl)]
    | cons r2 rs2 => rw [replaceEscStarAux.eq_3, if_neg (h r (r2 :: rs2) rfl)]

theorem replaceEscStarAux_backslash_star (l : Str) :
    replaceEscStarAux '\\' ('*' :: l) = '.' :: '*' :: replaceEscStar l := by
  cases l with
  | nil => rfl
  | cons r rs => rfl

theorem parseGlobRegex_backslash (c : Char) (l : Str) :
    parseGlobRegex ('\\' :: c :: l) =
      (parseGlobRegex l).map (fun is => GlobItem.lit c :: is) := by
  rw [parseGlobRegex.eq_3, if_pos rfl]

theorem parseGlobRegex_dot_star (l : Str) :
    parseGlobRegex ('.' :: '*' :: l) =
      (parseGlobRegex l).map (fun is => GlobItem.star :: is) := by
  rw [parseGlobRegex.eq_3, if_neg (by decide), if_pos rfl, if_pos rfl]

theorem parseGlobRegex_ordinary (c : Char) (l : Str) (h : isSpecialChar c = false) :
    parseGlobRegex (c :: l) =
      (parseGlobRegex l).map (fun is => GlobItem.lit c :: is) := by
  have hb : ¬ c = '\\' := by
    intro hc
    rw [hc] at h
    exact absurd h (by decide)
  have hd : ¬ c = '.' := by
    intro hc
    rw [hc] at h
    exact absurd h (by decide)
  have hsp : ¬ isSpecialChar c = true := by simp [h]
  cases l with
  | nil => rw [parseGlobRegex.eq_2, if_neg hb, if_neg hd, if_neg hsp]
  | cons r rs => rw [parseGlobRegex.eq_3, if_neg hb, if_neg hd, if_neg hsp]

/-- C9: compiling the glob-derived regular expression never fails: for
every pattern, the body built by quoteMeta followed by the escaped-star
replacement is accepted by the compiler, so the regexp.Compile error
branch of matchesWildcard (the filepath.Match fallback) is unreachable,
and matchesWildcard and matchesPattern deliver a boolean for every
(domain, pattern) input. -/
theorem C9_glob_compile_never_fails (p : Str) :
    (parseGlobRegex (replaceEscStar (quoteMeta p))).isSome = true := by
  induction p with
  | nil => rfl
  | cons a rest ih =>
    show (parseGlobRegex (replaceEscStar (quoteMeta (a :: rest)))).isSome = true
    unfold quoteMeta
    by_cases ha : isSpecialChar a = true
    · rw [if_pos ha]
      show (parseGlobRegex (replaceEscStarAux '\\' (a :: quoteMeta rest))).isSome = true
      by_cases hstar : a = '*'
      · subst hstar
        rw [replaceEscStarAux_backslash_star, parseGlobRegex_dot_star]
        simpa using ih
      · have hne : ∀ r rs, (a :: quoteMeta rest : Str) = r :: rs → ¬('\\' = '\\' ∧ r = '*') := by
          intro r rs h hand
          injection h with h1 h2
          exact hstar (h1.trans hand.2)
        rw [replaceEscStarAux_cons '\\' (a :: quoteMeta rest) hne]
        show (parseGlobRegex ('\\' :: replaceEscStarAux a (quoteMeta rest))).isSome = true
        have hne2 : ∀ r rs, quoteMeta rest = r :: rs → ¬(a = '\\' ∧ r = '*') := by
          intro r rs h hand
          exact quoteMeta_head_ne_star rest r rs h hand.2
        rw [replaceEscStarAux_cons a (quoteMeta rest) hne2]
        rw [parseGlobRegex_backslash]
        simpa using ih
    · rw [if_neg ha]
      show (parseGlobRegex (replaceEscStarAux a (quoteMeta rest))).isSome = true
      have hne2 : ∀ r rs, quoteMeta rest = r :: rs → ¬(a = '\\' ∧ r = '*') := by
        intro r rs h hand
        exact quoteMeta_head_ne_star rest r rs h hand.2
      rw [replaceEscStarAux_cons a (quoteMeta rest) hne2]
      have haf : isSpecialChar a = false := by
        cases hv : isSpecialChar a
        · rfl
        · exact absurd hv ha
      rw [parseGlobRegex_ordinary a _ haf]
      simpa using ih

end BBRF
